import Mathlib

/-!
# Verification of the stable-snip metadata extraction core

A shallow embedding of the metadata parsing/normalization engine of the
stable-snip repository (`src/lib/metadata/index.ts` and
`src/lib/metadata/save-with-metadata.ts`), together with theorems settling
the specification claims about it.

JavaScript runtime values are modelled by the inductive `MVal`
(strings, numbers with `none` standing for `NaN`, typed arrays of numbers,
arrays, plain objects, and `undefined`); records (`Record<string, any>`)
are association lists in property-insertion order, matching JavaScript's
enumeration order for string keys.  Exceptions are modelled with `Except`.
All definitions are structural (fuel is used where the source iterates on
data of statically unknown shape) so that every theorem below can be
checked by kernel evaluation on concrete inputs.
-/

/-- A JavaScript runtime value, as far as the metadata core manipulates them.
`num none` is `NaN`; `bytes` stands for numeric typed arrays (`Int32Array`). -/
inductive MVal where
  | undefined : MVal
  | str : String → MVal
  | num : Option Rat → MVal
  | bytes : List Nat → MVal
  | arr : List MVal → MVal
  | obj : List (String × MVal) → MVal
deriving Repr

set_option maxRecDepth 100000

/-- A JavaScript object / `Record<string, any>`: fields in insertion order. -/
abbrev JsObj := List (String × MVal)

/-- The exceptions the embedded code can raise. -/
inductive JsError where
  | typeError : JsError
  | syntaxError : JsError
deriving Repr, DecidableEq

/-- JavaScript truthiness of an `MVal` (`NaN`, `0`, `""`, `undefined` are falsy;
every object, array and typed array is truthy). -/
def truthy : MVal → Bool
  | .undefined => false
  | .str s => !(s == "")
  | .num none => false
  | .num (some q) => !(q.num == 0)
  | .bytes _ => true
  | .arr _ => true
  | .obj _ => true

/-- Property read `o[k]`: `undefined` when the key is absent. -/
def jsGetD : JsObj → String → MVal
  | [], _ => .undefined
  | (k', v) :: rest, k => if k' == k then v else jsGetD rest k

/-- Property write `o[k] = v`: overwrites in place, or appends a new last key
(JavaScript keeps the original insertion position of an existing key). -/
def jsSet : JsObj → String → MVal → JsObj
  | [], k, v => [(k, v)]
  | (k', v') :: rest, k, v =>
    if k' == k then (k, v) :: rest else (k', v') :: jsSet rest k v

/-- `delete o[k]` (keys are unique in every object the code builds). -/
def jsDelete (m : JsObj) (k : String) : JsObj :=
  m.filter (fun p => !(p.1 == k))

/-- Strict equality `v === s` between a runtime value and a string literal. -/
def strictEqStr (v : MVal) (s : String) : Bool :=
  match v with
  | .str t => t == s
  | _ => false

/-- Field read on an object-valued `MVal` (`undefined` otherwise). -/
def getField (v : MVal) (k : String) : MVal :=
  match v with
  | .obj kvs => jsGetD kvs k
  | _ => .undefined

/-- Field write on an object-valued `MVal` (identity otherwise: a property set
on a primitive is silently dropped in sloppy-mode JavaScript). -/
def setField (v : MVal) (k : String) (w : MVal) : MVal :=
  match v with
  | .obj kvs => .obj (jsSet kvs k w)
  | other => other

/- ### Character-list string utilities (JavaScript string methods) -/

/-- Build a `String` back from characters. -/
def chStr (l : List Char) : String := ⟨l⟩

/-- `a` starts with `p` (on character lists). -/
def startsWithL : List Char → List Char → Bool
  | _, [] => true
  | [], _ :: _ => false
  | c :: cs, p :: ps => c == p && startsWithL cs ps

/-- JS `s.startsWith(p)`. -/
def jsStartsWith (s p : String) : Bool := startsWithL s.data p.data

/-- First index at which `sub` occurs in `l`, if any. -/
def findSubL : List Char → List Char → Option Nat
  | [], sub => if sub.isEmpty then some 0 else none
  | c :: cs, sub =>
    if startsWithL (c :: cs) sub then some 0
    else (findSubL cs sub).map (· + 1)

/-- JS `s.includes(sub)`. -/
def jsIncludes (s sub : String) : Bool := (findSubL s.data sub.data).isSome

/-- Split before/after the first occurrence of `sub` (the occurrence removed). -/
def splitFirstL (l sub : List Char) : Option (List Char × List Char) :=
  (findSubL l sub).map (fun i => (l.take i, (l.drop i).drop sub.length))

/-- JS `s.split(sep)` for a non-empty literal separator, fuelled structurally. -/
def splitOnSubF : Nat → List Char → List Char → List (List Char)
  | 0, l, _ => [l]
  | Nat.succ fuel, l, sep =>
    match splitFirstL l sep with
    | none => [l]
    | some (pre, post) => pre :: splitOnSubF fuel post sep

/-- JS `s.split(sep)`. -/
def jsSplit (s sep : String) : List String :=
  (splitOnSubF (s.length + 1) s.data sep.data).map chStr

/-- JS `s.trim()` (Unicode whitespace as Lean's `Char.isWhitespace`). -/
def jsTrim (s : String) : String :=
  chStr (((s.data.dropWhile Char.isWhitespace).reverse.dropWhile
    Char.isWhitespace).reverse)

/-- Join a list of strings with a separator. -/
def joinWith (sep : String) : List String → String
  | [] => ""
  | [x] => x
  | x :: xs => x ++ sep ++ joinWith sep xs

/-- Decimal digits of a natural number (fuelled division loop). -/
def natDigitsAux : Nat → Nat → List Char
  | 0, _ => []
  | Nat.succ fuel, n =>
    if n < 10 then [Char.ofNat (48 + n)]
    else natDigitsAux fuel (n / 10) ++ [Char.ofNat (48 + n % 10)]

/-- Decimal representation of a natural number. -/
def natToString (n : Nat) : String := chStr (natDigitsAux (n + 1) n)

/-- Decimal representation of an integer. -/
def intToString (i : Int) : String :=
  match i with
  | .ofNat n => natToString n
  | .negSucc n => "-" ++ natToString (n + 1)

/-- Value of a list of decimal digit characters. -/
def digitsToNat (l : List Char) : Nat :=
  l.foldl (fun acc c => acc * 10 + (c.toNat - 48)) 0

/-- Smallest power of ten the denominator divides (for decimal printing). -/
def findScale (den : Nat) : Option Nat :=
  (List.range 31).find? (fun k => 10 ^ k % den == 0)

/-- JS number formatting, approximated for the finite decimals this code
produces (`parseFloat` results); exponent notation is not modelled. -/
def ratToString (q : Rat) : String :=
  match findScale q.den with
  | some 0 => intToString q.num
  | some k =>
    let n := q.num * (10 : Int) ^ k / (q.den : Int)
    let sign := if n < 0 then "-" else ""
    let ds := natDigitsAux (n.natAbs + 1) n.natAbs
    let padded := List.replicate (k + 1 - ds.length) '0' ++ ds
    sign ++ chStr (padded.take (padded.length - k)) ++ "." ++
      chStr (padded.drop (padded.length - k))
  | none => "?"

mutual

/-- `String(v)` / template-literal interpolation of a runtime value. -/
def jsToString : MVal → String
  | .undefined => "undefined"
  | .str s => s
  | .num none => "NaN"
  | .num (some q) => ratToString q
  | .bytes l => joinWith "," (l.map natToString)
  | .arr l => joinWith "," (jsToStringElems l)
  | .obj _ => "[object Object]"

/-- `Array.prototype.join` stringification of the elements (`undefined`
becomes the empty string inside a join). -/
def jsToStringElems : List MVal → List String
  | [] => []
  | .undefined :: rest => "" :: jsToStringElems rest
  | v :: rest => jsToString v :: jsToStringElems rest

end

/-- `Array.prototype.join('\n')` element conversion (`undefined` → `""`). -/
def joinElemStr (v : MVal) : String :=
  match v with
  | .undefined => ""
  | other => jsToString other

/-- `Object.entries(v)` (callers only reach this on truthy values; entries of
a string or array are its indexed elements, of other primitives none). -/
def mvalEntries : MVal → List (String × MVal)
  | .obj kvs => kvs
  | .str s => s.data.enum.map (fun p => (natToString p.1, .str (chStr [p.2])))
  | .arr l => l.enum.map (fun p => (natToString p.1, p.2))
  | .bytes l => l.enum.map (fun p => (natToString p.1, .num (some (mkRat (Int.ofNat p.2) 1))))
  | _ => []

/-- Coerce to a string where the source calls a string method on the value
(`.split`, `.match`): any non-string raises a `TypeError`. -/
def asString (v : MVal) : Except JsError String :=
  match v with
  | .str s => .ok s
  | _ => .error .typeError

/-- `v.includes(sub)`: strings search for the substring, arrays and typed
arrays for a strictly-equal element; other values have no such method. -/
def mvalIncludes (v : MVal) (sub : String) : Except JsError Bool :=
  match v with
  | .str s => .ok (jsIncludes s sub)
  | .arr l => .ok (l.any (fun e => strictEqStr e sub))
  | .bytes _ => .ok false
  | _ => .error .typeError

/-- JS `parseFloat` on the decimal strings this code feeds it (optional sign,
digits, at most one point; exponents and `Infinity` are not modelled). -/
def parseFloatQ (s : String) : Option Rat :=
  let l := s.data.dropWhile Char.isWhitespace
  let sign : Int := if l.headD ' ' == '-' then -1 else 1
  let l := if l.headD ' ' == '-' || l.headD ' ' == '+' then l.tail else l
  let intDigits := l.takeWhile Char.isDigit
  let rest := l.drop intDigits.length
  let fracDigits :=
    if rest.headD ' ' == '.' then rest.tail.takeWhile Char.isDigit else []
  if intDigits.isEmpty && fracDigits.isEmpty then none
  else some (mkRat
    (sign * Int.ofNat (digitsToNat intDigits * 10 ^ fracDigits.length +
      digitsToNat fracDigits))
    (10 ^ fracDigits.length))

/-- `parseFloat` applied to an arbitrary runtime value (non-strings stringify
to something non-numeric, hence `NaN`; `none` is `NaN`). -/
def parseFloatM (v : MVal) : Option Rat :=
  match v with
  | .str s => parseFloatQ s
  | _ => none


/- ### Constant tables of `save-with-metadata.ts` -/

/-- `automaticSDKeyMap`: SD parameter names to internal keys. -/
def automaticSDKeyMap : List (String × String) :=
  [("Seed", "seed"), ("CFG scale", "cfgScale"), ("Sampler", "sampler"),
   ("Steps", "steps"), ("Clip skip", "clipSkip")]

/-- `Map.get` on an association list of strings. -/
def mapGetStr (m : List (String × String)) (k : String) : Option String :=
  (m.find? (fun p => p.1 == k)).map (fun p => p.2)

/-- `getSDKey`: rename through the table, falling back to the trimmed key. -/
def getSDKey (key : String) : String :=
  (mapGetStr automaticSDKeyMap (jsTrim key)).getD (jsTrim key)

/-- `automaticSDEncodeMap`: the reversed pairs of `automaticSDKeyMap`. -/
def automaticSDEncodeMap : List (String × String) :=
  automaticSDKeyMap.map (fun p => (p.2, p.1))

/-- `excludedKeys`: keys skipped when emitting generic parameters. -/
def excludedKeys : List String :=
  ["hashes", "civitaiResources", "scheduler", "vaes", "additionalResources",
   "comfy", "upscalers", "models", "controlNets", "denoise", "other",
   "external"]

/-- `badExtensionKeys`: markers whose trailing sections are cut off. -/
def badExtensionKeys : List String :=
  ["Resources: ", "Hashed prompt: ", "Hashed Negative prompt: "]

/-- `templateKeys`: markers of template sections that are dropped. -/
def templateKeys : List String := ["Template: ", "Negative Template: "]

/- ### The details-line state machine (`parseDetailsLine`) -/

/-- `isPartialDate`: a 14-character value whose character at index 11 is `T`
(the date part of an ISO timestamp accumulated with its leading space). -/
def isPartialDate (date : String) : Bool :=
  date.length == 14 && date.data.getD 11 ' ' == 'T'

/-- Loop state of `parseDetailsLine`: the accumulated record, the current
key and value, and the two mode flags. -/
structure PDState where
  result : JsObj
  currentKey : String
  currentValue : String
  insideQuotes : Bool
  insideDate : Bool
deriving Repr

/-- One character step of the `parseDetailsLine` loop.  `rec` is the
recursive parse applied to a quoted value when its closing quote is seen
(the source calls `parseDetailsLine` itself there). -/
def stepPD (rec : String → JsObj) (s : PDState) (c : Char) : PDState :=
  if c == '"' then
    if s.insideQuotes then
      { result := jsSet s.result s.currentKey (.obj (rec (jsTrim s.currentValue))),
        currentKey := "", currentValue := s.currentValue,
        insideQuotes := false, insideDate := s.insideDate }
    else { s with insideQuotes := true }
  else if c == ':' && !s.insideQuotes && !s.insideDate then
    if isPartialDate s.currentValue then { s with insideDate := true }
    else { s with currentKey := getSDKey (jsTrim s.currentValue), currentValue := "" }
  else if c == ',' && !s.insideQuotes then
    { result :=
        if s.currentKey == "" then s.result
        else jsSet s.result s.currentKey (.str (jsTrim s.currentValue)),
      currentKey := "", currentValue := "",
      insideQuotes := s.insideQuotes, insideDate := false }
  else { s with currentValue := s.currentValue.push c }

/-- Run the loop over a whole line and apply the final
`if (currentKey) result[currentKey] = currentValue.trim()`. -/
def runPD (rec : String → JsObj) (line : String) : JsObj :=
  let s := line.data.foldl (stepPD rec) ⟨[], "", "", false, false⟩
  if s.currentKey == "" then s.result
  else jsSet s.result s.currentKey (.str (jsTrim s.currentValue))

/-- `parseDetailsLine`, fuelled on the nesting depth of quoted values (each
recursion works on a strictly shorter string, so `length + 1` suffices). -/
def parseDetailsLineF : Nat → String → JsObj
  | 0, _ => []
  | Nat.succ fuel, line => runPD (parseDetailsLineF fuel) line

/-- `parseDetailsLine` on a line (`undefined`/empty lines give `{}` via the
`if (!line)` guard, which coincides with running the loop on `""`). -/
def parseDetailsLine (line : String) : JsObj :=
  parseDetailsLineF (line.length + 1) line

/-- `parseDetailsLine(detailsLine)` where the line is `string | undefined`. -/
def parseDetailsLineOpt : Option String → JsObj
  | none => []
  | some line => parseDetailsLine line

/- ### Anchored pattern extraction (the three details-line regexes) -/

/-- Scan for the first anchor occurrence whose payload parses, returning
(text before the match, captured group, text after the match); on a payload
failure the scan resumes one character further, as a regex engine does. -/
def scanAnchor (anchor : List Char)
    (payload : List Char → Option (List Char × List Char)) :
    List Char → Option (List Char × List Char × List Char)
  | [] => none
  | c :: rest =>
    match
      (if startsWithL (c :: rest) anchor then
        (payload ((c :: rest).drop anchor.length)).map
          (fun pr => (([] : List Char), pr.1, pr.2))
      else none) with
    | some r => some r
    | none => (scanAnchor anchor payload rest).map
        (fun r => (c :: r.1, r.2.1, r.2.2))

/-- Payload of `/, Hashes:\s*({[^}]+})/`: whitespace, then `{`, then at least
one non-`}` character, then `}`; the capture is the braced group. -/
def hashesPayload (l : List Char) : Option (List Char × List Char) :=
  let body := l.dropWhile Char.isWhitespace
  match body with
  | '{' :: afterBrace =>
    let inner := afterBrace.takeWhile (fun c => !(c == '}'))
    if inner.isEmpty then none
    else
      match afterBrace.drop inner.length with
      | '}' :: after => some ('{' :: inner ++ ['}'], after)
      | _ => none
  | _ => none

/-- Payload of `/, Civitai resources:\s*(\[\{.*?\}\])/`: whitespace, `[{`,
then the shortest run of non-newline characters up to `}]`. -/
def civitaiResourcesPayload (l : List Char) : Option (List Char × List Char) :=
  let body := l.dropWhile Char.isWhitespace
  if startsWithL body ['[', '{'] then
    let afterOpen := body.drop 2
    match splitFirstL afterOpen ['}', ']'] with
    | some (middle, after) =>
      if middle.any (fun c => c == '\n') then none
      else some ('[' :: '{' :: middle ++ ['}', ']'], after)
    | none => none
  else none

/-- Payload of `/, Civitai metadata:\s*(\{.*?\})/`: whitespace, `{`, then the
shortest run of non-newline characters up to `}`. -/
def civitaiMetadataPayload (l : List Char) : Option (List Char × List Char) :=
  let body := l.dropWhile Char.isWhitespace
  match body with
  | '{' :: afterBrace =>
    match splitFirstL afterBrace ['}'] with
    | some (middle, after) =>
      if middle.any (fun c => c == '\n') then none
      else some ('{' :: middle ++ ['}'], after)
    | none => none
  | _ => none

/-- `line.match(re)?.[1]` together with `line.replace(re, '')` for one of the
three anchored regexes: the captured group and the line with the whole
match removed, or `none` when the regex does not match. -/
def matchAndStrip (anchor : String)
    (payload : List Char → Option (List Char × List Char)) (line : String) :
    Option (String × String) :=
  (scanAnchor anchor.data payload line.data).map
    (fun r => (chStr r.2.1, chStr (r.1 ++ r.2.2)))

/-- The `hashesRegex` extraction. -/
def hashesExtract (line : String) : Option (String × String) :=
  matchAndStrip ", Hashes:" hashesPayload line

/-- The `civitaiResources` regex extraction. -/
def civitaiResourcesExtract (line : String) : Option (String × String) :=
  matchAndStrip ", Civitai resources:" civitaiResourcesPayload line

/-- The `civitaiMetadata` regex extraction. -/
def civitaiMetadataExtract (line : String) : Option (String × String) :=
  matchAndStrip ", Civitai metadata:" civitaiMetadataPayload line


/- ### Inline resource tags and the name(hash) pattern -/

/-- Character class `[a-zA-Z0-9_\.\-]` of the extra-nets name group. -/
def isExtraNetNameChar (c : Char) : Bool :=
  c.isAlpha || c.isDigit || c == '_' || c == '.' || c == '-'

/-- Character class `[0-9.]` of the extra-nets weight group. -/
def isWeightChar (c : Char) : Bool := c.isDigit || c == '.'

/-- Try `/<(lora|hypernet):name:weight>/` at the head of the list; on success
return the three captured groups and the characters after the match. -/
def tryExtraNetAt (l : List Char) :
    Option ((String × String × String) × List Char) :=
  match l with
  | '<' :: rest =>
    let tyOpt : Option (List Char) :=
      if startsWithL rest ('l' :: 'o' :: 'r' :: 'a' :: [':']) then
        some ['l', 'o', 'r', 'a']
      else if startsWithL rest
          ('h' :: 'y' :: 'p' :: 'e' :: 'r' :: 'n' :: 'e' :: 't' :: [':']) then
        some ['h', 'y', 'p', 'e', 'r', 'n', 'e', 't']
      else none
    match tyOpt with
    | none => none
    | some ty =>
      let afterType := rest.drop (ty.length + 1)
      let name := afterType.takeWhile isExtraNetNameChar
      if name.isEmpty then none
      else
        match afterType.drop name.length with
        | ':' :: afterColon =>
          let w := afterColon.takeWhile isWeightChar
          if w.isEmpty then none
          else
            match afterColon.drop w.length with
            | '>' :: after => some ((chStr ty, chStr name, chStr w), after)
            | _ => none
        | _ => none
  | _ => none

/-- `[...prompt.matchAll(automaticExtraNetsRegex)]`: scan left to right,
resuming after each match, one character further after each failure. -/
def scanExtraNets : Nat → List Char → List (String × String × String)
  | 0, _ => []
  | Nat.succ fuel, l =>
    match l with
    | [] => []
    | _ :: rest =>
      match tryExtraNetAt l with
      | some (m, after) => m :: scanExtraNets fuel after
      | none => scanExtraNets fuel rest

/-- All extra-net tags of a prompt, in order. -/
def extraNetsMatches (s : String) : List (String × String × String) :=
  scanExtraNets (s.length + 1) s.data

/-- Character class `[a-zA-Z0-9_\.]` of the `automaticNameHash` name group. -/
def isNameHashChar (c : Char) : Bool :=
  c.isAlpha || c.isDigit || c == '_' || c == '.'

/-- Try `/name(hash)/` at the head of the list. -/
def tryNameHashAt (l : List Char) : Option (String × String) :=
  let name := l.takeWhile isNameHashChar
  if name.isEmpty then none
  else
    match l.drop name.length with
    | '(' :: afterParen =>
      let h := afterParen.takeWhile (fun c => c.isAlpha || c.isDigit)
      if h.isEmpty then none
      else
        match afterParen.drop h.length with
        | ')' :: _ => some (chStr name, chStr h)
        | _ => none
    | _ => none

/-- `fullname.match(automaticNameHash)`: first match anywhere, or none. -/
def scanNameHash : List Char → Option (String × String)
  | [] => none
  | c :: rest =>
    match tryNameHashAt (c :: rest) with
    | some r => some r
    | none => scanNameHash rest

/-- `/[\w\s]+: /.test(line)`: some word-or-space character is followed by
`": "`. -/
def hasKeyPattern : List Char → Bool
  | a :: b :: c :: rest =>
    ((a.isAlpha || a.isDigit || a == '_' || a.isWhitespace) &&
      b == ':' && c == ' ') || hasKeyPattern (b :: c :: rest)
  | _ => false

/-- `line.replace(/\,\s*$/, '')`: cut a trailing comma together with the
whitespace following it at the end of the line. -/
def stripTrailingCommaWS (s : String) : String :=
  match s.data.reverse.dropWhile Char.isWhitespace with
  | ',' :: rest => chStr rest.reverse
  | _ => s

/- ### `JSON.parse`, modelled on the flat string maps this code stores -/

/-- A JSON string literal without escape sequences (the hash maps the code
parses contain plain hexadecimal strings). -/
def jsonStrLit (l : List Char) : Option (String × List Char) :=
  match l with
  | '"' :: rest =>
    let body := rest.takeWhile (fun c => !(c == '"') && !(c == '\\'))
    match rest.drop body.length with
    | '"' :: after => some (chStr body, after)
    | _ => none
  | _ => none

/-- Comma-separated `"key": "value"` entries up to the closing brace. -/
def jsonFlatEntries : Nat → List Char → Option (List (String × MVal) × List Char)
  | 0, _ => none
  | Nat.succ fuel, l =>
    match jsonStrLit (l.dropWhile Char.isWhitespace) with
    | none => none
    | some (k, rest) =>
      match rest.dropWhile Char.isWhitespace with
      | ':' :: rest2 =>
        match jsonStrLit (rest2.dropWhile Char.isWhitespace) with
        | none => none
        | some (v, rest3) =>
          match rest3.dropWhile Char.isWhitespace with
          | ',' :: rest4 =>
            (jsonFlatEntries fuel rest4).map
              (fun pr => ((k, MVal.str v) :: pr.1, pr.2))
          | '}' :: rest4 => some ([(k, MVal.str v)], rest4)
          | _ => none
      | _ => none

/-- `JSON.parse`, restricted to the flat `{"name": "hash", ...}` documents
the `Hashes:` suffix carries; any other document is rejected with a
`SyntaxError`.  (No theorem below depends on the accepted language being
larger: every input they evaluate either contains no JSON suffix at all or
fails the anchored regex match before `JSON.parse` is reached.) -/
def jsonParseFlat (s : String) : Except JsError MVal :=
  match s.data.dropWhile Char.isWhitespace with
  | '{' :: rest =>
    match rest.dropWhile Char.isWhitespace with
    | '}' :: after =>
      if (after.dropWhile Char.isWhitespace).isEmpty then .ok (.obj [])
      else .error .syntaxError
    | _ =>
      match jsonFlatEntries (rest.length + 1) rest with
      | some (kvs, after) =>
        if (after.dropWhile Char.isWhitespace).isEmpty then .ok (.obj kvs)
        else .error .syntaxError
      | none => .error .syntaxError
  | _ => .error .syntaxError

/- ### `automaticMetadataProcessor.parse` -/

/-- The `while` loop of the template removal: keep removing the line at
index `i` until it matches `[\w\s]+: ` or the list runs out (fuelled by the
list length, which bounds the number of removals). -/
def removeTemplateAtF : Nat → Nat → List String → List String
  | 0, _, ls => ls
  | Nat.succ fuel, i, ls =>
    if i < ls.length && !hasKeyPattern (ls.getD i "").data then
      removeTemplateAtF fuel i (ls.eraseIdx i)
    else ls

/-- Remove one template section: the marker line and the following lines up
to the next recognizable `key: ` line. -/
def removeTemplate (lines : List String) (key : String) : List String :=
  match lines.findIdx? (fun l => jsStartsWith l key) with
  | none => lines
  | some i => removeTemplateAtF lines.length i (lines.eraseIdx i)

/-- The `for (const key of templateKeys)` loop. -/
def removeTemplates (lines : List String) : List String :=
  templateKeys.foldl removeTemplate lines

/-- `metaLines.find((line) => line.startsWith('Steps: '))`. -/
def findDetailsLine (lines : List String) : Option String :=
  lines.find? (fun l => jsStartsWith l "Steps: ")

/-- `metaLines.splice(metaLines.indexOf(detailsLine), 1)`: the details line
was already stripped of its trailing comma, so `indexOf` can miss, in which
case `splice(-1, 1)` removes the **last** line. -/
def spliceOutDetails (lines : List String) (dl : String) : List String :=
  match lines.findIdx? (fun l => l == dl) with
  | some i => lines.eraseIdx i
  | none => lines.dropLast

/-- The `badExtensionKeys` loop: cut the line at the first occurrence of
each marker it contains. -/
def cutBadExtensions (dl : Option String) : Option String :=
  badExtensionKeys.foldl
    (fun d key =>
      match d with
      | none => none
      | some s =>
        if jsIncludes s key then some ((jsSplit s key).headD "") else some s)
    dl

/-- Index of the first list element satisfying the predicate
(`Array.prototype.find`, by position). -/
def findIdxB (p : MVal → Bool) : List MVal → Option Nat
  | [] => none
  | r :: rest => if p r then some 0 else (findIdxB p rest).map (· + 1)

/-- Replace the element at an index (out-of-range indices leave the list). -/
def setAt : List MVal → Nat → MVal → List MVal
  | [], _, _ => []
  | _ :: rest, 0, v => v :: rest
  | r :: rest, Nat.succ n, v => r :: setAt rest n v

/-- One entry of the `Lora hashes` table: put the hash into
`metadata.hashes` under `lora:<name>`, and either attach it to the first
resource of that name or append a fresh `lora` resource. -/
def loraHashStep (acc : JsObj × List MVal) (nh : String × MVal) :
    JsObj × List MVal :=
  let md := jsSet acc.1 "hashes"
    (setField (jsGetD acc.1 "hashes") ("lora:" ++ nh.1) nh.2)
  match findIdxB (fun r => strictEqStr (getField r "name") nh.1) acc.2 with
  | some i => (md, setAt acc.2 i (setField (acc.2.getD i .undefined) "hash" nh.2))
  | none =>
    (md, acc.2 ++
      [.obj [("type", .str "lora"), ("name", .str nh.1), ("hash", nh.2)]])

/-- `v.toLowerCase()`: a string method, `TypeError` on anything else. -/
def toLowerCaseM (v : MVal) : Except JsError String :=
  match v with
  | .str s => .ok (chStr (s.data.map Char.toLower))
  | _ => .error .typeError

/-- The `AddNet` slot loop (`while (true)` with `i++`): stops at the first
absent/falsy `AddNet Model i`; each turn consumes a distinct key of the
finite record, so `metadata.length + 1` fuel is never exhausted. -/
def addNetLoop (metadata : JsObj) : Nat → Nat → List MVal →
    Except JsError (List MVal)
  | 0, _, rs => pure rs
  | Nat.succ fuel, i, rs => do
    let fullname := jsGetD metadata ("AddNet Model " ++ natToString i)
    if !truthy fullname then pure rs
    else do
      let fs ← asString fullname
      let nh := scanNameHash fs.data
      let nameV : MVal := match nh with | some p => .str p.1 | none => .undefined
      let hashV : MVal := match nh with | some p => .str p.2 | none => .undefined
      let ty ← toLowerCaseM (jsGetD metadata ("AddNet Module " ++ natToString i))
      let w := parseFloatM (jsGetD metadata ("AddNet Weight " ++ natToString i))
      addNetLoop metadata fuel (i + 1)
        (rs ++ [.obj [("type", .str ty), ("name", nameV), ("hash", hashV),
          ("weight", .num w)]])

/-- `automaticMetadataProcessor.parse`. -/
def automaticParse (exif : JsObj) : Except JsError JsObj := do
  let metadata : JsObj := []
  let gdv := jsGetD exif "generationDetails"
  if !truthy gdv then return metadata
  let gd ← asString gdv
  let metaLines := (jsSplit gd "\n").filter (fun l => !(jsTrim l == ""))
  let metaLines := removeTemplates metaLines
  let dl1 := (findDetailsLine metaLines).map stripTrailingCommaWS
  let metaLines :=
    match dl1 with
    | some d => if d == "" then metaLines else spliceOutDetails metaLines d
    | none => metaLines
  let dl2 := cutBadExtensions dl1
  let hx := dl2.bind hashesExtract
  let (metadata, dl3) ←
    match hx with
    | none => pure (metadata, dl2)
    | some (cap, stripped) => do
      let j ← jsonParseFlat cap
      pure (jsSet metadata "hashes" j, some stripped)
  let cr := dl3.bind civitaiResourcesExtract
  let (metadata, dl4) ←
    match cr with
    | none => pure (metadata, dl3)
    | some (cap, stripped) => do
      let j ← jsonParseFlat cap
      pure (jsSet metadata "civitaiResources" j, some stripped)
  let cm := dl4.bind civitaiMetadataExtract
  let (metadata, dl5) ←
    match cm with
    | none => pure (metadata, dl4)
    | some (cap, stripped) => do
      let j ← jsonParseFlat cap
      let md :=
        match j with
        | .obj [] => metadata
        | _ => jsSet metadata "extra" j
      pure (md, some stripped)
  let details := parseDetailsLineOpt dl5
  let metadata := details.foldl
    (fun md kv =>
      let key := (mapGetStr automaticSDKeyMap kv.1).getD kv.1
      if excludedKeys.contains key then md else jsSet md key kv.2)
    metadata
  let parts := (jsSplit (joinWith "\n" metaLines) "Negative prompt:").map jsTrim
  let prompt := parts.headD ""
  let metadata := jsSet metadata "prompt" (.str prompt)
  let metadata := jsSet metadata "negativePrompt"
    (.str (jsTrim (joinWith " " parts.tail)))
  let resources : List MVal := (extraNetsMatches prompt).map
    (fun m => .obj [("type", .str m.1), ("name", .str m.2.1),
      ("weight", .num (parseFloatQ m.2.2))])
  let (metadata, resources) :=
    if truthy (jsGetD metadata "Lora hashes") then
      let md0 :=
        if truthy (jsGetD metadata "hashes") then metadata
        else jsSet metadata "hashes" (.obj [])
      let st := (mvalEntries (jsGetD md0 "Lora hashes")).foldl loraHashStep
        (md0, resources)
      (jsDelete st.1 "Lora hashes", st.2)
    else (metadata, resources)
  let metadata :=
    if truthy (jsGetD metadata "VAE hash") then
      let md0 :=
        if truthy (jsGetD metadata "hashes") then metadata
        else jsSet metadata "hashes" (.obj [])
      let md1 := jsSet md0 "hashes"
        (setField (jsGetD md0 "hashes") "vae" (jsGetD md0 "VAE hash"))
      jsDelete md1 "VAE hash"
    else metadata
  let (metadata, resources) :=
    if truthy (jsGetD metadata "Model") && truthy (jsGetD metadata "Model hash") then
      let md0 :=
        if truthy (jsGetD metadata "hashes") then metadata
        else jsSet metadata "hashes" (.obj [])
      let md1 :=
        if truthy (getField (jsGetD md0 "hashes") "model") then md0
        else jsSet md0 "hashes"
          (setField (jsGetD md0 "hashes") "model" (jsGetD md0 "Model hash"))
      (md1, resources ++
        [.obj [("type", .str "model"), ("name", jsGetD md1 "Model"),
          ("hash", jsGetD md1 "Model hash")]])
    else (metadata, resources)
  let resources :=
    if truthy (jsGetD metadata "Hypernet") &&
        truthy (jsGetD metadata "Hypernet strength") then
      resources ++
        [.obj [("type", .str "hypernet"), ("name", jsGetD metadata "Hypernet"),
          ("weight", .num (parseFloatM (jsGetD metadata "Hypernet strength")))]]
    else resources
  let resources ←
    if strictEqStr (jsGetD metadata "AddNet Enabled") "True" then
      addNetLoop metadata (metadata.length + 1) 1 resources
    else pure resources
  return jsSet metadata "resources" (.arr resources)

/- ### `automaticMetadataProcessor.encode` -/

/-- `automaticMetadataProcessor.encode`: destructure out `prompt`,
`negativePrompt`, `resources` and `steps`; emit the prompt line, the
negative-prompt line when truthy, and a comma-joined details line of
`Steps:` followed by every remaining field whose (inversely renamed) key is
not excluded. -/
def isDestructuredKey (k : String) : Bool :=
  k == "prompt" || k == "negativePrompt" || k == "resources" || k == "steps"

/-- Render one generic `key: value` pair of the details line, through the
inverse rename table, skipping excluded keys. -/
def encodePair (kv : String × MVal) : Option String :=
  let key := (mapGetStr automaticSDEncodeMap kv.1).getD kv.1
  if excludedKeys.contains key then none
  else some (key ++ ": " ++ jsToString kv.2)

def automaticEncode (meta : JsObj) : String :=
  let other := meta.filter (fun kv => !isDestructuredKey kv.1)
  let negativePrompt := jsGetD meta "negativePrompt"
  let steps := jsGetD meta "steps"
  let lines := [joinElemStr (jsGetD meta "prompt")]
  let lines :=
    if truthy negativePrompt then
      lines ++ ["Negative prompt: " ++ jsToString negativePrompt]
    else lines
  let fineDetails :=
    (if truthy steps then ["Steps: " ++ jsToString steps] else []) ++
    other.filterMap encodePair
  let lines :=
    if fineDetails.isEmpty then lines else lines ++ [joinWith ", " fineDetails]
  joinWith "\n" lines

/- ### `automaticMetadataProcessor.canParse` and the encoding helper -/

/-- Modelled from the spec (§4.4; `encoding-helpers.ts` is imported but not
under `src/`): strip a leading byte-order mark, swap adjacent byte pairs
from big- to little-endian, and decode UTF-16, never throwing — a trailing
odd byte is dropped.  Surrogate-pair recombination is not modelled (the
strings involved are ASCII), and non-byte-array inputs decode to `""`. -/
def swapPairsBytes : List Nat → List Nat
  | a :: b :: rest => b :: a :: swapPairsBytes rest
  | _ => []

/-- Drop a leading big-endian byte-order mark `FE FF`. -/
def stripBOMBytes : List Nat → List Nat
  | 254 :: 255 :: rest => rest
  | l => l

/-- Little-endian UTF-16 code units to characters. -/
def utf16leChars : List Nat → List Char
  | lo :: hi :: rest => Char.ofNat (hi * 256 + lo) :: utf16leChars rest
  | _ => []

/-- `decodeBigEndianUTF16` (see `swapPairsBytes` for the modelling note). -/
def decodeBigEndianUTF16 : MVal → String
  | .bytes bs => chStr (utf16leChars (swapPairsBytes (stripBOMBytes bs)))
  | _ => ""

/-- `automaticMetadataProcessor.canParse`: promote `parameters` (or the
decoded `userComment`) into `exif.generationDetails` whenever one is
truthy — note the promotion happens before, and regardless of, the
`includes('Steps: ')` verdict — and answer whether the marker is present.
`includes` on a non-string generation-details value raises. -/
def automaticCanParse (exif : JsObj) : Except JsError (Bool × JsObj) :=
  let p := jsGetD exif "parameters"
  let generationDetails : MVal :=
    if truthy p then p
    else if truthy (jsGetD exif "userComment") then
      .str (decodeBigEndianUTF16 (jsGetD exif "userComment"))
    else .undefined
  if truthy generationDetails then
    match mvalIncludes generationDetails "Steps: " with
    | .ok b => .ok (b, jsSet exif "generationDetails" generationDetails)
    | .error e => .error e
  else .ok (false, exif)

/- ### The dispatcher of `index.ts` -/

/-- The `{canParse, parse, encode}` capability record of `index.ts`. -/
structure MetadataProcessor where
  canParse : JsObj → Except JsError (Bool × JsObj)
  parse : JsObj → Except JsError JsObj
  encode : JsObj → String

/-- The generator-text descriptor. -/
def automaticMetadataProcessor : MetadataProcessor :=
  ⟨automaticCanParse, automaticParse, automaticEncode⟩

/-- Modelled from the spec (§4.3 detection; `comfy.metadata.ts` is imported
by `index.ts` but absent from `src/`): match when the tags carry the
workflow blob under `prompt` or `workflow`, or when `Model[0]` carries the
`prompt:`-prefixed WebP convention, in which case the remaining JSON is
promoted into both fields before declaring the match. -/
def comfyCanParse (exif : JsObj) : Except JsError (Bool × JsObj) :=
  if truthy (jsGetD exif "prompt") || truthy (jsGetD exif "workflow") then
    .ok (true, exif)
  else
    match jsGetD exif "Model" with
    | .arr (.str s :: _) =>
      if jsStartsWith s "prompt:" then
        let comfyJson : MVal := .str (chStr (s.data.drop 7))
        .ok (true, jsSet (jsSet exif "prompt" comfyJson) "workflow" comfyJson)
      else .ok (false, exif)
    | _ => .ok (false, exif)

/-- Modelled from the spec (§4.3; the source file is absent from `src/`):
the workflow-graph parse deserializes the graph blob — throwing on
malformed JSON — and assembles best-effort metadata.  No theorem below
depends on the assembled shape, so the model checks deserialization and
records the raw blob under `comfy`. -/
def comfyParse (exif : JsObj) : Except JsError JsObj := do
  let s ← asString (jsGetD exif "prompt")
  let _ ← jsonParseFlat s
  pure [("comfy", .str s)]

/-- Modelled from the spec (§4.3): emit the stored workflow blob when the
`comfy` field is present, the empty string otherwise. -/
def comfyEncode (meta : JsObj) : String :=
  match jsGetD meta "comfy" with
  | .str s => s
  | _ => ""

/-- The workflow-graph descriptor. -/
def comfyMetadataProcessor : MetadataProcessor :=
  ⟨comfyCanParse, comfyParse, comfyEncode⟩

/-- The `parsers` registry, in object-literal order. -/
def parsersList : List MetadataProcessor :=
  [automaticMetadataProcessor, comfyMetadataProcessor]

/-- `Object.values(parsers).find((x) => x.canParse(exif))`: the predicates
run left to right on the *shared, possibly mutated* tag map; an exception
in any predicate aborts the whole scan. -/
def findParserE : List MetadataProcessor → JsObj →
    Except JsError (Option MetadataProcessor × JsObj)
  | [], exif => .ok (none, exif)
  | p :: ps, exif => do
    let (b, exif2) ← p.canParse exif
    if b then pure (some p, exif2) else findParserE ps exif2

/-- The body of the inner `try` of `getMetadata`: dispatch, then parse with
the chosen descriptor; no descriptor means the empty record. -/
def getMetadataInner (exif : JsObj) : Except JsError JsObj := do
  let (po, exif2) ← findParserE parsersList exif
  match po with
  | some p => p.parse exif2
  | none => pure []

/-- `Int32Array.from(v)`: byte arrays pass through; other iterables give
zero-filled arrays (their elements coerce to `NaN`, which the typed array
stores as `0`); non-iterables give an empty array.  Only background for
`prepExif`; no theorem depends on the conversion. -/
def int32ArrayFrom : MVal → MVal
  | .bytes l => .bytes l
  | .str s => .bytes (s.data.map (fun _ => 0))
  | .arr l => .bytes (l.map (fun _ => 0))
  | _ => .bytes []

/-- The tag preprocessing of `getMetadata`: drop `MakerNote` and promote a
truthy `UserComment` into `userComment` as a numeric array.  (The tag map
is modelled with tag values already unwrapped from their reader envelopes;
the `value.value` projection is the I/O boundary.) -/
def prepExif (tags : JsObj) : JsObj :=
  let t := jsDelete tags "MakerNote"
  if truthy (jsGetD t "UserComment") then
    jsSet t "userComment" (int32ArrayFrom (jsGetD t "UserComment"))
  else t

/-- `getMetadata`: the argument is the outcome of the external tag reader
(`.error` when loading threw).  The outer `catch` turns a load failure into
`{}`; the inner `catch` turns any dispatch/parse failure into `{}`. -/
def getMetadata (loaded : Except JsError JsObj) : JsObj :=
  match loaded with
  | .error _ => []
  | .ok tags =>
    match getMetadataInner (prepExif tags) with
    | .ok m => m
    | .error _ => []

/-- `parsers[type]` of `encodeMetadata`. -/
def parsersGet (ty : String) : Option MetadataProcessor :=
  if ty == "automatic" then some automaticMetadataProcessor
  else if ty == "comfy" then some comfyMetadataProcessor
  else none

/-- `encodeMetadata(meta, type)` (the source defaults `type` to
`'automatic'`); `none` models the `undefined` of an unknown dialect. -/
def encodeMetadata (ty : String) (meta : JsObj) : Option String :=
  (parsersGet ty).map (fun p => p.encode meta)

/-- `parsePromptMetadata`: the direct generator-text entry point — no
`try`/`catch` around it. -/
def parsePromptMetadata (generationDetails : String) : Except JsError JsObj :=
  automaticMetadataProcessor.parse [("generationDetails", .str generationDetails)]

/- ### Concrete inputs used by the theorems -/

/-- The worked example of §8 of the specification. -/
def exampleBlob : String :=
  "A beautiful landscape\nNegative prompt: ugly, blurry\nSteps: 20, Sampler: Euler a, CFG scale: 7, Seed: 12345, Size: 512x512, Model hash: 1234abcd, Model: modelName"

/-- A generator-text blob with one inline lora tag and its hash table. -/
def loraBlob : String :=
  "<lora:myStyle:0.8>\nSteps: 1, Lora hashes: \"myStyle: abc123\""

/-- The same blob with the inline tag occurring twice. -/
def loraBlobTwice : String :=
  "<lora:myStyle:0.8> <lora:myStyle:0.8>\nSteps: 1, Lora hashes: \"myStyle: abc123\""

/-- A blob whose record carries a hash map and a resource list. -/
def lossyBlob : String :=
  "art <lora:sty:0.5>\nSteps: 30, Lora hashes: \"sty: beef01\""

/-- A details line with an enabled AddNet slot whose `Module` field is
missing, so `parse` calls `.toLowerCase()` on `undefined`. -/
def addNetGapBlob : String :=
  "Steps: 1, AddNet Enabled: True, AddNet Model 1: foo(abcd)"

/- ### C9 -/

/-- C9: there is an input string on which the direct entry point
`parsePromptMetadata` throws (here: an enabled AddNet block with
`AddNet Model 1` present but `AddNet Module 1` absent raises a
`TypeError`), while `getMetadata` absorbs the very same failure into the
empty record — the exception-absorption guarantee holds only inside
`getMetadata`. -/
theorem parsePromptMetadata_throws_on_addnet_gap :
    parsePromptMetadata addNetGapBlob = .error .typeError ∧
    getMetadata (.ok [("parameters", MVal.str addNetGapBlob)]) = [] :=
  ⟨rfl, rfl⟩

/- ### C2 -/

/-- C2 (counterexample): on the specification's worked example the parser
stores the step count as the *string* `"20"`, not the number `20` — there
is no numeric coercion in this repository, so the claimed numeric fields
`steps=20`, `cfgScale=7`, `seed=12345` do not hold as stated. -/
theorem automatic_parse_example_steps_not_number :
    (parsePromptMetadata exampleBlob).map (fun m => jsGetD m "steps") =
      .ok (MVal.str "20") ∧
    MVal.str "20" ≠ MVal.num (some (mkRat 20 1)) :=
  ⟨rfl, fun h => MVal.noConfusion h⟩

/-- C2 (as amended): parsing the worked example yields
`prompt="A beautiful landscape"`, `negativePrompt="ugly, blurry"`,
`steps="20"`, `cfgScale="7"`, `seed="12345"`, `sampler="Euler a"` (the
numeric-looking fields as raw strings), and the resources entry
`{type:"model", name:"modelName", hash:"1234abcd"}`. -/
theorem automatic_parse_example_strings :
    (parsePromptMetadata exampleBlob).map (fun m =>
      (jsGetD m "prompt", jsGetD m "negativePrompt", jsGetD m "steps",
       jsGetD m "cfgScale", jsGetD m "seed", jsGetD m "sampler",
       jsGetD m "resources")) =
    .ok (MVal.str "A beautiful landscape", MVal.str "ugly, blurry",
      MVal.str "20", MVal.str "7", MVal.str "12345", MVal.str "Euler a",
      MVal.arr [MVal.obj [("type", MVal.str "model"),
        ("name", MVal.str "modelName"), ("hash", MVal.str "1234abcd")]]) :=
  rfl

/- ### C3 -/

/-- C3 (counterexample): `getMetadata` applies no schema normalizer — the
numeric-looking `steps` field of the returned record is the raw string
`"20"`, not a number, contradicting the claimed coercion step. -/
theorem getMetadata_applies_no_normalizer :
    jsGetD (getMetadata (.ok
      [("parameters", MVal.str "picture\nSteps: 20, Seed: 5")])) "steps" =
      MVal.str "20" ∧
    MVal.str "20" ≠ MVal.num (some (mkRat 20 1)) ∧
    jsGetD (getMetadata (.ok
      [("parameters", MVal.str "picture\nSteps: 20, Seed: 5")])) "seed" =
      MVal.str "5" :=
  ⟨rfl, fun h => MVal.noConfusion h, rfl⟩

/-- C3 (as amended): the extraction pipeline has no normalization stage —
whenever dispatch and parse succeed, `getMetadata` returns the parser's
record verbatim (fields pass through unchanged and numeric-looking strings
stay strings; only the exception catches, not validation, degrade the
result to empty). -/
theorem getMetadata_returns_parser_output_verbatim (tags m : JsObj)
    (h : getMetadataInner (prepExif tags) = .ok m) :
    getMetadata (.ok tags) = m := by
  simp [getMetadata, h]

/-- Witness for `getMetadata_returns_parser_output_verbatim` at a concrete
tag map. -/
theorem getMetadata_returns_parser_output_verbatim_witness :
    getMetadata (.ok [("parameters", MVal.str "picture\nSteps: 20, Seed: 5")]) =
      [("steps", MVal.str "20"), ("seed", MVal.str "5"),
       ("prompt", MVal.str "picture"), ("negativePrompt", MVal.str ""),
       ("resources", MVal.arr [])] :=
  getMetadata_returns_parser_output_verbatim _ _ rfl

/-- `undefined` is falsy (helper for the detection proofs). -/
theorem truthy_undefined_val : truthy MVal.undefined = false := rfl

/- ### C8 -/

/-- C8 (counterexample): on a tag map whose `parameters` value lacks the
`Steps: ` marker, the generator-text detection predicate *declines* and yet
has already promoted the value into `generationDetails` on the shared tag
map — the raw tag map seen by later predicates is changed even on a
negative verdict. -/
theorem automaticCanParse_mutates_on_decline :
    automaticCanParse [("parameters", MVal.str "hello")] =
      .ok (false, [("parameters", MVal.str "hello"),
        ("generationDetails", MVal.str "hello")]) ∧
    [("parameters", MVal.str "hello"),
      ("generationDetails", MVal.str "hello")] ≠
      [("parameters", MVal.str "hello")] :=
  ⟨rfl, by simp⟩

/-- C8 (as amended): the generator-text detection computes one
generation-details value — the `parameters` value if truthy, otherwise the
decoded `userComment` — and promotes it into `exif.generationDetails`
whenever *it* is truthy, before and regardless of the `Steps: ` verdict
(first two conjuncts: the parameters-sourced and the userComment-sourced
promotion, the latter with the verdict it then reports); the mutation is
*not* confined to a positive match.  The tag map is left unchanged by a
declining predicate exactly when no truthy generation-details value is
obtained: no source field at all (third conjunct), or a `userComment`
decoding to the empty string (fourth conjunct). -/
theorem automaticCanParse_promotion_behaviour (exif : JsObj) :
    (truthy (jsGetD exif "parameters") = true →
      ∀ b exif2, automaticCanParse exif = .ok (b, exif2) →
        exif2 = jsSet exif "generationDetails" (jsGetD exif "parameters")) ∧
    (truthy (jsGetD exif "parameters") = false →
      truthy (jsGetD exif "userComment") = true →
      truthy (MVal.str (decodeBigEndianUTF16 (jsGetD exif "userComment"))) =
        true →
      automaticCanParse exif =
        .ok (jsIncludes (decodeBigEndianUTF16 (jsGetD exif "userComment"))
            "Steps: ",
          jsSet exif "generationDetails"
            (MVal.str (decodeBigEndianUTF16 (jsGetD exif "userComment"))))) ∧
    (truthy (jsGetD exif "parameters") = false →
      truthy (jsGetD exif "userComment") = false →
      automaticCanParse exif = .ok (false, exif)) ∧
    (truthy (jsGetD exif "parameters") = false →
      truthy (MVal.str (decodeBigEndianUTF16 (jsGetD exif "userComment"))) =
        false →
      automaticCanParse exif = .ok (false, exif)) := by
  refine ⟨?_, ?_, ?_, ?_⟩
  · intro hp b exif2 h
    simp only [automaticCanParse, hp, if_true] at h
    cases hinc : mvalIncludes (jsGetD exif "parameters") "Steps: " with
    | ok bb =>
      rw [hinc] at h
      injection h with h1
      exact (congrArg Prod.snd h1).symm
    | error er => rw [hinc] at h; exact Except.noConfusion h
  · intro hp hu ht
    simp only [automaticCanParse, hp, hu, ht, Bool.false_eq_true, if_false,
      if_true, mvalIncludes]
  · intro hp hu
    simp only [automaticCanParse, hp, hu, Bool.false_eq_true, if_false,
      truthy_undefined_val]
  · intro hp ht
    by_cases hu : truthy (jsGetD exif "userComment") = true
    · simp only [automaticCanParse, hp, hu, ht, Bool.false_eq_true, if_false,
        if_true]
    · simp only [Bool.not_eq_true] at hu
      simp only [automaticCanParse, hp, hu, Bool.false_eq_true, if_false,
        truthy_undefined_val]

/-- Witness for `automaticCanParse_promotion_behaviour`, one concrete map
per conjunct: a declined `parameters` promotion; a declined
`userComment`-sourced promotion (UTF-16BE bytes decoding to `"hello"`,
which lacks the marker, yet `generationDetails` is added); the empty map;
and a `userComment` decoding to `""`, which declines without mutation. -/
theorem automaticCanParse_promotion_behaviour_witness :
    [("parameters", MVal.str "hello"), ("generationDetails", MVal.str "hello")] =
      jsSet [("parameters", MVal.str "hello")] "generationDetails"
        (jsGetD [("parameters", MVal.str "hello")] "parameters") ∧
    automaticCanParse
        [("userComment", MVal.bytes [0, 104, 0, 101, 0, 108, 0, 108, 0, 111])] =
      .ok (false,
        [("userComment", MVal.bytes [0, 104, 0, 101, 0, 108, 0, 108, 0, 111]),
         ("generationDetails", MVal.str "hello")]) ∧
    automaticCanParse [] = .ok (false, []) ∧
    automaticCanParse [("userComment", MVal.bytes [])] =
      .ok (false, [("userComment", MVal.bytes [])]) :=
  ⟨(automaticCanParse_promotion_behaviour [("parameters", MVal.str "hello")]).1
      rfl false _ rfl,
   (automaticCanParse_promotion_behaviour
      [("userComment", MVal.bytes [0, 104, 0, 101, 0, 108, 0, 108, 0, 111])]).2.1
      rfl rfl rfl,
   (automaticCanParse_promotion_behaviour []).2.2.1 rfl rfl,
   (automaticCanParse_promotion_behaviour
      [("userComment", MVal.bytes [])]).2.2.2 rfl rfl⟩

/- ### C7 -/

/-- C7 (counterexample): on a tag map carrying both a non-string
`parameters` value and a comfy-style `prompt` field, the generator-text
predicate raises a `TypeError`; the error aborts the whole descriptor scan
— the comfy descriptor, which *would* have matched, is never tried — and
`getMetadata` returns the empty record instead of comfy's parse. -/
theorem detect_error_skips_remaining_descriptors :
    comfyMetadataProcessor.canParse
        [("parameters", MVal.obj []), ("prompt", MVal.str "x")] =
      .ok (true, [("parameters", MVal.obj []), ("prompt", MVal.str "x")]) ∧
    findParserE parsersList
        [("parameters", MVal.obj []), ("prompt", MVal.str "x")] =
      .error .typeError ∧
    getMetadata (.ok [("parameters", MVal.obj []), ("prompt", MVal.str "x")]) =
      [] :=
  ⟨rfl, rfl, rfl⟩

/-- C7 (as amended): an internal error in the generator-text detection
predicate is *not* confined to that descriptor — it propagates out of the
descriptor scan, so the remaining descriptors are never tried, and it is
only caught at the extraction boundary, where `getMetadata` yields the
empty record. -/
theorem detect_error_aborts_dispatch (tags : JsObj) (e : JsError)
    (h : automaticCanParse (prepExif tags) = .error e) :
    findParserE parsersList (prepExif tags) = .error e ∧
    getMetadata (.ok tags) = [] := by
  have hf : findParserE parsersList (prepExif tags) = .error e := by
    show Except.bind (automaticCanParse (prepExif tags)) _ = _
    rw [h]; rfl
  have hi : getMetadataInner (prepExif tags) = .error e := by
    show Except.bind (findParserE parsersList (prepExif tags)) _ = _
    rw [hf]; rfl
  exact ⟨hf, by simp [getMetadata, hi]⟩

/-- Witness for `detect_error_aborts_dispatch` at a concrete tag map. -/
theorem detect_error_aborts_dispatch_witness :
    findParserE parsersList (prepExif [("parameters", MVal.obj [])]) =
      .error .typeError ∧
    getMetadata (.ok [("parameters", MVal.obj [])]) = [] :=
  detect_error_aborts_dispatch [("parameters", MVal.obj [])] .typeError rfl

/- ### C1 -/

/-- C1: `getMetadata` never throws — for every loading outcome (including a
reader failure) the caller receives a record: either the empty record (any
internal failure, such as the parse exception of the third conjunct's
malformed AddNet input, is absorbed at the boundary) or the successful
parse output. -/
theorem getMetadata_never_throws (loaded : Except JsError JsObj) :
    (getMetadata loaded = [] ∨
      ∃ tags m, loaded = .ok tags ∧
        getMetadataInner (prepExif tags) = .ok m ∧ getMetadata loaded = m) ∧
    getMetadata (.error .typeError) = [] ∧
    getMetadata (.ok [("parameters",
      MVal.str "Steps: 2, AddNet Enabled: True, AddNet Model 1: g(cd)")]) =
      [] := by
  refine ⟨?_, rfl, rfl⟩
  cases loaded with
  | error e => exact Or.inl rfl
  | ok tags =>
    cases h : getMetadataInner (prepExif tags) with
    | ok m => exact Or.inr ⟨tags, m, rfl, h, by simp [getMetadata, h]⟩
    | error e => exact Or.inl (by simp [getMetadata, h])

/- ### C4 -/

/-- C4 (counterexample): the timestamp guard of the state machine requires
the letter `T` at position 11, not a colon — a 14-character value with a
colon at position 11 fails `isPartialDate`, so the next colon *is* treated
as a key/value separator: in the concrete line the quoted text
`abcdefghijk:mn` (length 14, colon at index 11) ends up as a *key* of the
result. -/
theorem stepPD_colon_at_eleven_separates :
    isPartialDate "abcdefghijk:mn" = false ∧
    ("abcdefghijk:mn").length = 14 ∧
    ("abcdefghijk:mn").data.getD 11 ' ' = ':' ∧
    stepPD parseDetailsLine ⟨[], "", "abcdefghijk:mn", false, false⟩ ':' =
      ⟨[], "abcdefghijk:mn", "", false, false⟩ ∧
    parseDetailsLine "A:\"abcdefghijk:mn\": z" =
      [("A", .obj [("abcdefghijk", .str "mn")]),
       ("abcdefghijk:mn", .str "z")] :=
  ⟨rfl, rfl, rfl, rfl, rfl⟩

/-- C4 (as amended): in every state of the details-line machine, a colon
read inside a double-quoted value only extends the value (it starts no new
key), a comma read inside a double-quoted value only extends the value (it
terminates no pair), and a value matching the fixed 14-character timestamp
pattern — the letter `T` at position 11 — sends the machine into date mode
on the next colon instead of treating it as a key/value separator. -/
theorem stepPD_quote_and_date_protection (rec : String → JsObj) (s : PDState) :
    (s.insideQuotes = true →
      stepPD rec s ':' = { s with currentValue := s.currentValue.push ':' } ∧
      stepPD rec s ',' = { s with currentValue := s.currentValue.push ',' }) ∧
    (s.insideQuotes = false → s.insideDate = false →
      isPartialDate s.currentValue = true →
      stepPD rec s ':' = { s with insideDate := true }) := by
  constructor
  · intro hq
    constructor
    · simp [stepPD, hq]
    · simp [stepPD, hq]
  · intro hq hd hdate
    simp [stepPD, hq, hd, hdate]

/-- Witness for `stepPD_quote_and_date_protection` at concrete states. -/
theorem stepPD_quote_and_date_protection_witness :
    stepPD parseDetailsLine ⟨[], "k", "v", true, false⟩ ':' =
      ⟨[], "k", "v:", true, false⟩ ∧
    stepPD parseDetailsLine ⟨[], "k", "v", true, false⟩ ',' =
      ⟨[], "k", "v,", true, false⟩ ∧
    stepPD parseDetailsLine ⟨[], "k", " 2023-01-15T10", false, false⟩ ':' =
      ⟨[], "k", " 2023-01-15T10", false, true⟩ :=
  ⟨((stepPD_quote_and_date_protection parseDetailsLine
      ⟨[], "k", "v", true, false⟩).1 rfl).1,
   ((stepPD_quote_and_date_protection parseDetailsLine
      ⟨[], "k", "v", true, false⟩).1 rfl).2,
   (stepPD_quote_and_date_protection parseDetailsLine
      ⟨[], "k", " 2023-01-15T10", false, false⟩).2 rfl rfl (by decide)⟩

/- ### C10 -/

/-- Key/result preservation of the loop on colon-free, quote-free input
(helper for the C10 theorem). -/
theorem foldPD_no_colon_no_quote (rec : String → JsObj) (cs : List Char)
    (s : PDState) (hcs : ∀ c ∈ cs, c ≠ ':' ∧ c ≠ '"')
    (hk : s.currentKey = "") (hr : s.result = []) :
    (cs.foldl (stepPD rec) s).currentKey = "" ∧
    (cs.foldl (stepPD rec) s).result = [] := by
  induction cs generalizing s with
  | nil => exact ⟨hk, hr⟩
  | cons c cs ih =>
    have hc := hcs c (List.mem_cons_self c cs)
    have hstep : (stepPD rec s c).currentKey = "" ∧
        (stepPD rec s c).result = [] := by
      have h1 : (c == '"') = false := by
        simp [hc.2]
      have h2 : (c == ':') = false := by
        simp [hc.1]
      by_cases h3 : (c == ',' && !s.insideQuotes) = true
      · simp [stepPD, h1, h2, h3, hk, hr]
      · simp [stepPD, h1, h2, h3, hk, hr]
    exact ih _ (fun d hd => hcs d (List.mem_cons_of_mem c hd)) hstep.1 hstep.2

/-- C10: on seeing the closing quote, the machine always stores, under the
current key, the result of *recursively parsing* the quoted value as a
details list (first conjunct); a quoted value containing no colon (hence no
quote either — a quote would have ended it) therefore parses to the empty
record, and the concrete line `Key: "plain text"` maps `Key` to the empty
record with the quoted text dropped (remaining conjuncts). -/
theorem quoted_values_recursively_parsed (rec : String → JsObj) (s : PDState)
    (v : String) :
    (s.insideQuotes = true →
      stepPD rec s '"' =
        { result := jsSet s.result s.currentKey (.obj (rec (jsTrim s.currentValue))),
          currentKey := "", currentValue := s.currentValue,
          insideQuotes := false, insideDate := s.insideDate }) ∧
    ((∀ c ∈ v.data, c ≠ ':' ∧ c ≠ '"') → parseDetailsLine v = []) ∧
    parseDetailsLine "Key: \"plain text\"" = [("Key", .obj [])] := by
  refine ⟨?_, ?_, rfl⟩
  · intro hq
    simp [stepPD, hq]
  · intro hv
    show runPD (parseDetailsLineF v.length) v = []
    unfold runPD
    have h := foldPD_no_colon_no_quote (parseDetailsLineF v.length) v.data
      ⟨[], "", "", false, false⟩ hv rfl rfl
    simp [h.1, h.2]

/-- Witness for `quoted_values_recursively_parsed` at a concrete state and a
concrete colon-free value. -/
theorem quoted_values_recursively_parsed_witness :
    stepPD parseDetailsLine ⟨[("a", MVal.str "b")], "K", " x", true, false⟩ '"' =
      ⟨jsSet [("a", MVal.str "b")] "K" (.obj (parseDetailsLine "x")), "",
        " x", false, false⟩ ∧
    parseDetailsLine "plain text" = [] :=
  ⟨(quoted_values_recursively_parsed parseDetailsLine
      ⟨[("a", MVal.str "b")], "K", " x", true, false⟩ "plain text").1 rfl,
   (quoted_values_recursively_parsed parseDetailsLine
      ⟨[("a", MVal.str "b")], "K", " x", true, false⟩ "plain text").2.1
      (by decide)⟩

/- ### C6 -/

/-- Setting one key leaves every other key unchanged (helper). -/
theorem jsGetD_jsSet_ne (m : JsObj) (k k' : String) (v : MVal)
    (h : (k == k') = false) : jsGetD (jsSet m k v) k' = jsGetD m k' := by
  induction m with
  | nil => simp [jsSet, jsGetD, h]
  | cons a rest ih =>
    by_cases hk : (a.1 == k) = true
    · have : a.1 = k := eq_of_beq hk
      simp [jsSet, hk, jsGetD, this, h]
    · simp only [Bool.not_eq_true] at hk
      simp [jsSet, hk, jsGetD, ih]

/-- Setting one field of a value leaves every other field unchanged
(helper). -/
theorem getField_setField_ne (r : MVal) (k k' : String) (w : MVal)
    (h : (k == k') = false) : getField (setField r k w) k' = getField r k' := by
  cases r with
  | obj kvs => exact jsGetD_jsSet_ne kvs k k' w h
  | undefined => rfl
  | str s => rfl
  | num q => rfl
  | bytes b => rfl
  | arr l => rfl

/-- Replacing an element by one with the same predicate value preserves the
match count and the length (helper). -/
theorem countP_setAt (p : MVal → Bool) (l : List MVal) (i : Nat) (v : MVal)
    (h : p v = p (l.getD i .undefined)) :
    (setAt l i v).countP p = l.countP p ∧ (setAt l i v).length = l.length := by
  induction l generalizing i with
  | nil => simp [setAt]
  | cons a rest ih =>
    cases i with
    | zero =>
      simp only [List.getD_cons_zero] at h
      simp [setAt, List.countP_cons, h]
    | succ n =>
      simp only [List.getD_cons_succ] at h
      have := ih n h
      simp [setAt, List.countP_cons, this.1, this.2]

/-- C6 (as amended): on the spec's example — a prompt with exactly one
inline `<lora:myStyle:0.8>` tag and a `Lora hashes` table mapping
`myStyle` to `abc123` — parse produces exactly one resource, of type
`lora`, name `myStyle`, weight `0.8`, enriched with hash `abc123`, and the
global hash map gains `lora:myStyle -> abc123` (first conjunct); and in
general each hash-table entry enriches the *first* resource of that name
in place (resource count and name-match count unchanged) or, when no
resource of that name exists, appends exactly one new entry — never
duplicating an existing one (second conjunct). -/
theorem loraHash_merge_enriches_without_duplicates :
    ((parsePromptMetadata loraBlob).map (fun m =>
        (jsGetD m "resources", getField (jsGetD m "hashes") "lora:myStyle")) =
      .ok (.arr [.obj [("type", .str "lora"), ("name", .str "myStyle"),
          ("weight", .num (some (mkRat 4 5))), ("hash", .str "abc123")]],
        .str "abc123")) ∧
    (∀ (md : JsObj) (rs : List MVal) (name : String) (hash : MVal),
      ((loraHashStep (md, rs) (name, hash)).2.countP
          (fun r => strictEqStr (getField r "name") name),
       (loraHashStep (md, rs) (name, hash)).2.length) =
        match findIdxB (fun r => strictEqStr (getField r "name") name) rs with
        | some _ =>
          (rs.countP (fun r => strictEqStr (getField r "name") name),
           rs.length)
        | none =>
          (rs.countP (fun r => strictEqStr (getField r "name") name) + 1,
           rs.length + 1)) := by
  refine ⟨rfl, ?_⟩
  intro md rs name hash
  unfold loraHashStep
  cases hf : findIdxB (fun r => strictEqStr (getField r "name") name) rs with
  | some i =>
    simp only [hf]
    have hpres : strictEqStr
        (getField (setField (rs.getD i .undefined) "hash" hash) "name") name =
        strictEqStr (getField (rs.getD i .undefined) "name") name := by
      rw [getField_setField_ne _ _ _ _ (by decide)]
    have := countP_setAt (fun r => strictEqStr (getField r "name") name) rs i
      (setField (rs.getD i .undefined) "hash" hash) hpres
    exact congrArg₂ Prod.mk this.1 this.2
  | none =>
    simp only [hf]
    simp [List.countP_append, List.countP_cons, strictEqStr, getField, jsGetD]

/-- C6 (counterexample): with the inline tag occurring twice in the prompt
— an input the claim's hypotheses admit — parse produces *two* resources
named `myStyle` (the hash enriches only the first), not exactly one. -/
theorem loraHash_duplicate_inline_tags :
    (parsePromptMetadata loraBlobTwice).map (fun m => jsGetD m "resources") =
      .ok (.arr [.obj [("type", .str "lora"), ("name", .str "myStyle"),
          ("weight", .num (some (mkRat 4 5))), ("hash", .str "abc123")],
        .obj [("type", .str "lora"), ("name", .str "myStyle"),
          ("weight", .num (some (mkRat 4 5)))]]) ∧
    ([.obj [("type", .str "lora"), ("name", .str "myStyle"),
        ("weight", .num (some (mkRat 4 5))), ("hash", .str "abc123")],
      .obj [("type", .str "lora"), ("name", .str "myStyle"),
        ("weight", .num (some (mkRat 4 5)))]] : List MVal).countP
        (fun r => strictEqStr (getField r "name") "myStyle") = 2 :=
  ⟨rfl, rfl⟩

/- ### C5 -/

/-- The keys the encoder can never re-emit: the destructured `resources`
and every member of the exclusion list (`hashes`, `civitaiResources`,
`comfy`, ...). -/
def neverReEmitted (k : String) : Bool :=
  k == "resources" || excludedKeys.contains k

/-- Blank the contents of every nested object value (helper for stating
that the encoder is blind to the contents of nested metadata blocks). -/
def blankV : MVal → MVal
  | .obj _ => .obj []
  | v => v

/-- `blankV` applied to every field value of a record. -/
def blankNestedObjects (meta : JsObj) : JsObj :=
  meta.map (fun kv => (kv.1, blankV kv.2))

/-- The generator-text encoder exactly as §4.2 of the specification words
it: emit the prompt line, an optional negative-prompt line, then a details
line built from `steps` (if present) followed by all *other* fields not in
the exclusion list, each rendered through the inverse of the key-rename
table as `Key: value`, comma-joined. -/
def encodeSpec (meta : JsObj) : String :=
  let promptLine := joinElemStr (jsGetD meta "prompt")
  let negLines :=
    if truthy (jsGetD meta "negativePrompt") then
      ["Negative prompt: " ++ jsToString (jsGetD meta "negativePrompt")]
    else []
  let stepsPart :=
    if truthy (jsGetD meta "steps") then
      ["Steps: " ++ jsToString (jsGetD meta "steps")]
    else []
  let rest := meta.filterMap (fun kv =>
    if isDestructuredKey kv.1 then none else encodePair kv)
  let details := stepsPart ++ rest
  joinWith "\n" ([promptLine] ++ negLines ++
    (if details.isEmpty then [] else [joinWith ", " details]))

/-- Fusing the destructuring filter into a filterMap (helper). -/
theorem filterMap_of_filter_not (f : String × MVal → Option String)
    (l : JsObj) :
    (l.filter (fun kv => !isDestructuredKey kv.1)).filterMap f =
      l.filterMap (fun kv => if isDestructuredKey kv.1 then none else f kv) := by
  induction l with
  | nil => rfl
  | cons a rest ih =>
    by_cases hp : isDestructuredKey a.1 = true
    · simp [List.filter_cons, List.filterMap_cons, hp, ih]
    · simp only [Bool.not_eq_true] at hp
      simp [List.filter_cons, List.filterMap_cons, hp, ih]

/-- A filter that only drops entries the filterMap ignores anyway is
invisible (helper). -/
theorem filterMap_filter_invisible (l : JsObj) (q : String × MVal → Bool)
    (f : String × MVal → Option String)
    (hf : ∀ kv ∈ l, q kv = false → f kv = none) :
    (l.filter q).filterMap f = l.filterMap f := by
  induction l with
  | nil => rfl
  | cons a rest ih =>
    have ihr := ih (fun kv hkv hq => hf kv (List.mem_cons_of_mem a hkv) hq)
    by_cases hq : q a = true
    · simp [List.filter_cons, List.filterMap_cons, hq, ihr]
    · simp only [Bool.not_eq_true] at hq
      have := hf a (List.mem_cons_self a rest) hq
      simp [List.filter_cons, List.filterMap_cons, hq, this, ihr]

/-- Reads of a key every entry of which survives the filter are unchanged
(helper). -/
theorem jsGetD_filter_true (l : JsObj) (k : String) (p : String × MVal → Bool)
    (hp : ∀ v, p (k, v) = true) : jsGetD (l.filter p) k = jsGetD l k := by
  induction l with
  | nil => rfl
  | cons a rest ih =>
    by_cases hpa : p a = true
    · by_cases hak : (a.1 == k) = true
      · simp [List.filter_cons, hpa, jsGetD, hak]
      · simp [List.filter_cons, hpa, jsGetD, hak, ih]
    · simp only [Bool.not_eq_true] at hpa
      have hak : (a.1 == k) = false := by
        by_contra hcon
        simp only [Bool.not_eq_false] at hcon
        have hk : a.1 = k := eq_of_beq hcon
        have hpk : p (k, a.2) = true := hp a.2
        rw [← hk, show ((a.1 : String), a.2) = a from rfl] at hpk
        exact absurd hpk (by simp [hpa])
      simp [List.filter_cons, hpa, jsGetD, hak, ih]

/-- Filters commute (helper). -/
theorem filter_swap (l : JsObj) (p q : String × MVal → Bool) :
    (l.filter p).filter q = (l.filter q).filter p := by
  induction l with
  | nil => rfl
  | cons a rest ih =>
    by_cases hp : p a = true <;> by_cases hq : q a = true <;>
      simp [List.filter_cons, hp, hq, ih]

/-- The inverse rename table does not touch any excluded key (helper). -/
theorem rename_of_excluded (k : String) (h : k ∈ excludedKeys) :
    (mapGetStr automaticSDEncodeMap k).getD k = k := by
  fin_cases h <;> rfl

/-- The encoder agrees with the specification's description (helper: C5
refinement direction). -/
theorem automaticEncode_eq_encodeSpec (meta : JsObj) :
    automaticEncode meta = encodeSpec meta := by
  simp only [automaticEncode, encodeSpec]
  rw [filterMap_of_filter_not]
  by_cases h1 : truthy (jsGetD meta "negativePrompt") = true <;>
    by_cases h2 : ((if truthy (jsGetD meta "steps") = true then
        ["Steps: " ++ jsToString (jsGetD meta "steps")] else []) ++
      meta.filterMap (fun kv =>
        if isDestructuredKey kv.1 then none
        else encodePair kv)).isEmpty = true <;>
    simp only [h1, h2, eq_self_iff_true, if_true, Bool.false_eq_true,
      if_false, List.append_assoc, List.cons_append, List.nil_append]

/-- The encoder ignores every never-re-emitted field (helper: C5
frame direction). -/
theorem automaticEncode_ignores_never_reemitted (meta : JsObj) :
    automaticEncode meta =
      automaticEncode (meta.filter (fun kv => !neverReEmitted kv.1)) := by
  simp only [automaticEncode]
  have hp : jsGetD (meta.filter (fun kv => !neverReEmitted kv.1)) "prompt" =
      jsGetD meta "prompt" :=
    jsGetD_filter_true _ _ _ (fun v => rfl)
  have hn : jsGetD (meta.filter (fun kv => !neverReEmitted kv.1))
      "negativePrompt" = jsGetD meta "negativePrompt" :=
    jsGetD_filter_true _ _ _ (fun v => rfl)
  have hs : jsGetD (meta.filter (fun kv => !neverReEmitted kv.1)) "steps" =
      jsGetD meta "steps" :=
    jsGetD_filter_true _ _ _ (fun v => rfl)
  rw [hp, hn, hs]
  have hother :
      ((meta.filter (fun kv => !neverReEmitted kv.1)).filter
          (fun kv => !isDestructuredKey kv.1)).filterMap encodePair =
        (meta.filter (fun kv => !isDestructuredKey kv.1)).filterMap
          encodePair := by
    rw [filter_swap]
    apply filterMap_filter_invisible
    intro kv hmem hq
    have hnr : neverReEmitted kv.1 = true := by
      simpa using hq
    have hdk : isDestructuredKey kv.1 = false := by
      have := (List.mem_filter.mp hmem).2
      simpa using this
    have hres : (kv.1 == "resources") = false := by
      by_contra hcon
      simp only [Bool.not_eq_false] at hcon
      simp [isDestructuredKey, hcon] at hdk
    have hcont : excludedKeys.contains kv.1 = true := by
      simp only [neverReEmitted, hres, Bool.false_or] at hnr
      exact hnr
    have hmemx : kv.1 ∈ excludedKeys := by
      simpa using hcont
    simp only [encodePair, rename_of_excluded kv.1 hmemx, hcont, if_true]
  rw [hother]

/-- Reads after blanking nested objects (helper). -/
theorem jsGetD_blank (l : JsObj) (k : String) :
    jsGetD (blankNestedObjects l) k = blankV (jsGetD l k) := by
  induction l with
  | nil => rfl
  | cons a rest ih =>
    simp only [blankNestedObjects] at ih ⊢
    by_cases h : (a.1 == k) = true <;>
      simp [jsGetD, h, ih]

/-- Blanking preserves truthiness (helper). -/
theorem truthy_blankV (v : MVal) : truthy (blankV v) = truthy v := by
  cases v <;> rfl

/-- Blanking preserves stringification (helper). -/
theorem jsToString_blankV (v : MVal) : jsToString (blankV v) = jsToString v := by
  cases v <;> rfl

/-- Blanking preserves join stringification (helper). -/
theorem joinElemStr_blankV (v : MVal) :
    joinElemStr (blankV v) = joinElemStr v := by
  cases v <;> rfl

/-- Blanking commutes with the destructuring filter (helper). -/
theorem filter_blankNested (l : JsObj) :
    (blankNestedObjects l).filter (fun kv => !isDestructuredKey kv.1) =
      blankNestedObjects (l.filter (fun kv => !isDestructuredKey kv.1)) := by
  induction l with
  | nil => rfl
  | cons a rest ih =>
    simp only [blankNestedObjects] at ih ⊢
    by_cases h : isDestructuredKey a.1 = true <;>
      simp [List.filter_cons, h, ih]

/-- Blanking is invisible to the pair renderer (helper). -/
theorem filterMap_encodePair_blank (l : JsObj) :
    (blankNestedObjects l).filterMap encodePair = l.filterMap encodePair := by
  induction l with
  | nil => rfl
  | cons a rest ih =>
    simp only [blankNestedObjects] at ih ⊢
    simp [List.filterMap_cons, List.filterMap_map, encodePair,
      jsToString_blankV, ih]

/-- The encoder never sees the contents of nested object values (helper:
C5 nested-block direction). -/
theorem automaticEncode_blind_to_nested (meta : JsObj) :
    automaticEncode meta = automaticEncode (blankNestedObjects meta) := by
  simp only [automaticEncode, jsGetD_blank, truthy_blankV, jsToString_blankV,
    joinElemStr_blankV, filter_blankNested, filterMap_encodePair_blank]

/-- C5: the generator-text encoder emits the prompt line, an optional
negative-prompt line, then a details line of the steps pair followed by
the remaining non-excluded scalar fields (first conjunct: it coincides
with the specification's description `encodeSpec`); it never re-emits
`resources` or any excluded key — `hashes`, `civitaiResources`, `comfy`,
... — (second conjunct) and never the contents of nested metadata blocks
(third conjunct: blanking every nested object leaves the output
unchanged); concretely, encode after parse on `lossyBlob` reproduces
prompt and steps but not the record's hash map or resource list (last
conjuncts). -/
theorem automaticEncode_structure_and_lossiness :
    (∀ meta, automaticEncode meta = encodeSpec meta) ∧
    (∀ meta, automaticEncode meta =
      automaticEncode (meta.filter (fun kv => !neverReEmitted kv.1))) ∧
    (∀ meta, automaticEncode meta =
      automaticEncode (blankNestedObjects meta)) ∧
    ((parsePromptMetadata lossyBlob).map automaticEncode =
      .ok "art <lora:sty:0.5>\nSteps: 30") ∧
    ((parsePromptMetadata lossyBlob).map (fun m =>
        (jsGetD m "hashes", jsGetD m "resources")) =
      .ok (.obj [("lora:sty", .str "beef01")],
        .arr [.obj [("type", .str "lora"), ("name", .str "sty"),
          ("weight", .num (some (mkRat 1 2))), ("hash", .str "beef01")]])) :=
  ⟨automaticEncode_eq_encodeSpec, automaticEncode_ignores_never_reemitted,
   automaticEncode_blind_to_nested, rfl, rfl⟩
